import Mathlib

/-!
Verification of the request-time access-control and security-validation
layer of the agency-starter-kit repository: the route-guard middleware
(`src/middleware.ts`), the SSRF guard (`src/lib/security/ssrf.ts`), the
upload validator and filename utilities (`src/lib/security/file-upload.ts`),
and the HTML output encoder (`src/lib/security/escape.ts`).

Each TypeScript function is shallowly embedded as an executable Lean
definition over `String` / `List Char`; JavaScript string builtins used by
the source (`startsWith`, `toLowerCase`, `split`, `includes`, global
single-pattern `replace`) are modelled as list functions with the same
semantics on the inputs involved.
-/

/-- Model of JavaScript `String.prototype.startsWith`: `p` is a prefix of `s`. -/
def strStartsWith (s p : String) : Bool :=
  p.data.isPrefixOf s.data

/-- Model of JavaScript `String.prototype.toLowerCase` (ASCII range, which is
all that the embedded functions compare against). -/
def strToLower (s : String) : String :=
  ⟨s.data.map Char.toLower⟩

/-! ## Route guard middleware (`src/middleware.ts`)

The session-refresh half of the middleware talks to an external
authentication service; its outcome is the presence or absence of a `user`,
modelled as a `Bool` input. The routing decision taken on `pathname` and
`user` is embedded exactly. -/

/-- Routes that require authentication (source: `PROTECTED_ROUTES`). -/
def PROTECTED_ROUTES : List String := ["/dashboard", "/settings", "/admin"]

/-- Routes that are public only (source: `AUTH_ROUTES`). -/
def AUTH_ROUTES : List String := ["/login", "/signup"]

/-- Result of the middleware: a redirect to `location` carrying `query`
parameters, or passthrough of the request (`NextResponse.next()`). -/
inductive MwResult where
  | redirect (location : String) (query : List (String × String))
  | next
  deriving DecidableEq, Repr

/-- Source: `PROTECTED_ROUTES.some((route) => pathname.startsWith(route))`. -/
def isProtectedRoute (pathname : String) : Bool :=
  PROTECTED_ROUTES.any (fun route => strStartsWith pathname route)

/-- Source: `AUTH_ROUTES.some((route) => pathname.startsWith(route))`. -/
def isAuthRoute (pathname : String) : Bool :=
  AUTH_ROUTES.any (fun route => strStartsWith pathname route)

/-- Embedding of `middleware` (`src/middleware.ts`, lines 58-78): the routing
decision on the request pathname and the authenticated user's presence. -/
def middleware (pathname : String) (user : Bool) : MwResult :=
  if isProtectedRoute pathname && !user then
    .redirect "/login" [("redirect", pathname)]
  else if isAuthRoute pathname && user then
    .redirect "/dashboard" []
  else
    .next

/-- C1: a request whose pathname starts with a protected prefix and has no
authenticated user is redirected to `/login` with the original pathname in
the `redirect` query parameter; a request whose pathname starts with an
auth-only prefix and has an authenticated user is redirected to
`/dashboard`; every other request passes through unmodified. -/
theorem middleware_route_gating (p : String) (user : Bool) :
    (isProtectedRoute p = true → user = false →
      middleware p user = .redirect "/login" [("redirect", p)])
    ∧ (isAuthRoute p = true → user = true →
      middleware p user = .redirect "/dashboard" [])
    ∧ (¬ (isProtectedRoute p = true ∧ user = false) →
       ¬ (isAuthRoute p = true ∧ user = true) →
      middleware p user = .next) := by
  refine ⟨?_, ?_, ?_⟩
  · intro hp hu
    simp [middleware, hp, hu]
  · intro ha hu
    subst hu
    simp [middleware, ha]
  · intro h1 h2
    cases hp : isProtectedRoute p <;> cases hu : user <;>
      cases ha : isAuthRoute p <;>
        simp_all [middleware]

/-- Witness for C1 at concrete requests: `/dashboard` unauthenticated is
redirected to login, `/login` authenticated is redirected to the dashboard,
and `/` passes through. -/
theorem middleware_route_gating_witness :
    middleware "/dashboard" false = .redirect "/login" [("redirect", "/dashboard")]
    ∧ middleware "/login" true = .redirect "/dashboard" []
    ∧ middleware "/" true = .next :=
  ⟨(middleware_route_gating "/dashboard" false).1 (by decide) rfl,
   (middleware_route_gating "/login" true).2.1 (by decide) rfl,
   (middleware_route_gating "/" true).2.2 (by decide) (by decide)⟩

/-! ## SSRF guard (`src/lib/security/ssrf.ts`)

`validateExternalUrl` begins with `new URL(urlString)`; the WHATWG URL
parser is modelled below on the fragment the guard inspects (scheme and
hostname). The model follows the WHATWG algorithm for scheme extraction,
slash skipping after a special scheme, userinfo stripping, host/port
splitting, host lowercasing, and bracketed IPv6 hosts (whose serialized
hostname keeps the square brackets, as in the platform `URL` class).
Percent-decoding, IDNA mapping and IPv6 zero-compression are not modelled;
no claim below exercises them. Hostnames of non-http(s) URLs are
approximated (the validator rejects those URLs on their scheme before
reading the hostname). -/

/-- Parsed URL fragment inspected by the guard: `protocol` keeps the
trailing colon (as in the `URL` class), `hostname` is the serialized host. -/
structure UrlParts where
  protocol : String
  hostname : String
  deriving DecidableEq, Repr

/-- Characters permitted in a URL scheme after the initial letter. -/
def schemeChar (c : Char) : Bool :=
  c.isAlpha || c.isDigit || c = '+' || c = '-' || c = '.'

/-- Split input into the characters before the first `:` (all of which must
be scheme characters) and the remainder after it. -/
def splitScheme : List Char → Option (List Char × List Char)
  | [] => none
  | c :: rest =>
    if c = ':' then some ([], rest)
    else if schemeChar c then
      match splitScheme rest with
      | some (sch, r) => some (c :: sch, r)
      | none => none
    else none

/-- Code points the WHATWG parser forbids in a (non-bracketed) host. -/
def forbiddenHostChar (c : Char) : Bool :=
  c = '\x00' || c = '\t' || c = '\n' || c = '\r' || c = ' ' || c = '#' ||
  c = '/' || c = ':' || c = '<' || c = '>' || c = '?' || c = '@' ||
  c = '[' || c = '\\' || c = ']' || c = '^' || c = '|'

/-- Characters that may appear inside a bracketed IPv6 host. -/
def ipv6Char (c : Char) : Bool :=
  c.isDigit || ('a' ≤ c && c ≤ 'f') || ('A' ≤ c && c ≤ 'F') || c = ':' || c = '.'

/-- Parse a host-and-optional-port string into the serialized hostname.
A bracketed IPv6 host keeps its brackets in the serialization. -/
def parseHostPort (hostPort : List Char) (allowEmptyHost : Bool) : Option String :=
  match hostPort with
  | '[' :: rest =>
    let inside := rest.takeWhile (fun c => c ≠ ']')
    let after := rest.dropWhile (fun c => c ≠ ']')
    match after with
    | ']' :: tail =>
      if inside.isEmpty || !(inside.all ipv6Char) then none
      else if tail.isEmpty || (tail.head? == some ':' && tail.tail.all (fun c => c.isDigit)) then
        some ⟨('[' :: inside.map Char.toLower) ++ [']']⟩
      else none
    | _ => none
  | _ =>
    let host := hostPort.takeWhile (fun c => c ≠ ':')
    let portPart := hostPort.dropWhile (fun c => c ≠ ':')
    if host.any forbiddenHostChar then none
    else if !(portPart.isEmpty || (portPart.head? == some ':' && portPart.tail.all (fun c => c.isDigit))) then none
    else if host.isEmpty then (if allowEmptyHost then some "" else none)
    else some ⟨host.map Char.toLower⟩

/-- Parse an authority section: cut at the first path/query/fragment
terminator, strip userinfo up to the last `@`, then split host and port. -/
def parseAuthority (l : List Char) (allowEmptyHost : Bool) : Option String :=
  let authority := l.takeWhile (fun c => !(c = '/' || c = '\\' || c = '?' || c = '#'))
  let hostPort := (authority.splitOn '@').getLastD authority
  parseHostPort hostPort allowEmptyHost

/-- Model of `new URL(urlString)` restricted to the fields the SSRF guard
reads; returns `none` where the platform constructor throws. -/
def parseUrl (s : String) : Option UrlParts :=
  match splitScheme s.data with
  | none => none
  | some (schemeChars, rest) =>
    match schemeChars.head? with
    | none => none
    | some c0 =>
      if !c0.isAlpha then none
      else
        let scheme : String := ⟨schemeChars.map Char.toLower⟩
        let protocol : String := scheme ++ ":"
        if scheme = "file" then
          match rest with
          | '/' :: '/' :: r =>
            match parseAuthority r true with
            | some h => some ⟨protocol, h⟩
            | none => none
          | _ => some ⟨protocol, ""⟩
        else if scheme ∈ ["http", "https", "ws", "wss", "ftp"] then
          let afterSlashes := rest.dropWhile (fun c => c = '/' || c = '\\')
          match parseAuthority afterSlashes false with
          | some h => some ⟨protocol, h⟩
          | none => none
        else
          match rest with
          | '/' :: '/' :: r =>
            match parseAuthority r true with
            | some h => some ⟨protocol, h⟩
            | none => none
          | _ => some ⟨protocol, ""⟩

/-- Model of JavaScript `String.prototype.includes` on character lists. -/
def listContainsSub (s pat : List Char) : Bool :=
  pat.isPrefixOf s ||
    match s with
    | [] => false
    | _ :: rest => listContainsSub rest pat

/-- Blocked hostnames (source: `BLOCKED_HOSTS`). -/
def BLOCKED_HOSTS : List String :=
  ["localhost", "127.0.0.1", "0.0.0.0", "169.254.169.254",
   "metadata.google.internal", "metadata.azure.com"]

/-- Dangerous URL schemes (source: `BLOCKED_SCHEMES`). -/
def BLOCKED_SCHEMES : List String := ["file:", "ftp:", "gopher:", "dict:", "ldap:"]

/-- Expansion of the source regex `^172\.(1[6-9]|2[0-9]|3[0-1])\.`: the
sixteen prefixes it can match. -/
def RANGE_172 : List String :=
  ["172.16.", "172.17.", "172.18.", "172.19.", "172.20.", "172.21.",
   "172.22.", "172.23.", "172.24.", "172.25.", "172.26.", "172.27.",
   "172.28.", "172.29.", "172.30.", "172.31."]

/-- Source: `BLOCKED_IP_RANGES.some((pattern) => pattern.test(hostname))`.
Each anchored regex `^p` is the prefix test for `p`, and `^::1$` is
equality with `::1`. -/
def blockedIpRangeMatch (h : String) : Bool :=
  strStartsWith h "10." ||
  RANGE_172.any (fun p => strStartsWith h p) ||
  strStartsWith h "192.168." ||
  strStartsWith h "127." ||
  strStartsWith h "0." ||
  strStartsWith h "169.254." ||
  h == "::1" ||
  strStartsWith h "fc00:" ||
  strStartsWith h "fe80:"

/-- Error kinds thrown by `validateExternalUrl`, one per `throw` site. -/
inductive SsrfError where
  | invalidUrl
  | blockedProtocol
  | blockedSchemeDetected
  | blockedHost
  | privateIpRange
  deriving DecidableEq, Repr

/-- Embedding of `validateExternalUrl` (`src/lib/security/ssrf.ts`,
lines 38-73): parse, check the protocol, scan the raw string for blocked
scheme substrings, then check the hostname against the denylist and the
private-range patterns; `Except.error` stands for `throw`. -/
def validateExternalUrl (urlString : String) : Except SsrfError Bool :=
  match parseUrl urlString with
  | none => Except.error .invalidUrl
  | some url =>
    if !(["http:", "https:"].contains url.protocol) then
      Except.error .blockedProtocol
    else if BLOCKED_SCHEMES.any
        (fun sch => listContainsSub (strToLower urlString).data sch.data) then
      Except.error .blockedSchemeDetected
    else
      let hostname := strToLower url.hostname
      if BLOCKED_HOSTS.contains hostname then
        Except.error .blockedHost
      else if blockedIpRangeMatch hostname then
        Except.error .privateIpRange
      else
        Except.ok true

/-- Embedding of `isInternalUrl` (`src/lib/security/ssrf.ts`, lines 78-85):
`false` when `validateExternalUrl` returns, `true` when it throws. -/
def isInternalUrl (urlString : String) : Bool :=
  match validateExternalUrl urlString with
  | Except.ok _ => false
  | Except.error _ => true

/-- The validator only ever returns `true` on success (the source returns
the literal `true`). -/
theorem validateExternalUrl_ok_val (s : String) (b : Bool)
    (h : validateExternalUrl s = Except.ok b) : b = true := by
  simp only [validateExternalUrl] at h
  repeat' split at h
  all_goals simp_all

/-- C2: the code is expected to reject every http(s) URL whose hostname is
a loopback, private or link-local IP literal — including IPv6 literals in
URL bracket notation — with a BlockedHost-kind error. It does not: the URL
parser serializes an IPv6 hostname with its square brackets, so the
anchored patterns for `::1`, `fc00:` and `fe80:` (which do match the
bracket-free literals they were written for) can never match a parsed
hostname, and `http://[::1]/` is accepted. -/
theorem validateExternalUrl_ipv6_bracket_allowed :
    parseUrl "http://[::1]/" = some ⟨"http:", "[::1]"⟩
    ∧ blockedIpRangeMatch "::1" = true
    ∧ blockedIpRangeMatch "[::1]" = false
    ∧ validateExternalUrl "http://[::1]/" = Except.ok true := by
  refine ⟨by decide, by decide, by decide, by rfl⟩

/-- C3: an unparsable input is rejected as an invalid URL; a parsable input
whose scheme is not http or https is rejected as a blocked protocol; in
neither case is the input allowed. The listed examples evaluate to the
blocked-protocol rejection. -/
theorem validateExternalUrl_scheme_gate (s : String) :
    (parseUrl s = none → validateExternalUrl s = Except.error SsrfError.invalidUrl)
    ∧ (∀ u, parseUrl s = some u → u.protocol ≠ "http:" → u.protocol ≠ "https:" →
        validateExternalUrl s = Except.error SsrfError.blockedProtocol)
    ∧ ((parseUrl s = none ∨
        ∃ u, parseUrl s = some u ∧ u.protocol ≠ "http:" ∧ u.protocol ≠ "https:") →
        ∀ b, validateExternalUrl s ≠ Except.ok b)
    ∧ validateExternalUrl "file:///etc/passwd" = Except.error SsrfError.blockedProtocol
    ∧ validateExternalUrl "ftp://x" = Except.error SsrfError.blockedProtocol
    ∧ validateExternalUrl "gopher://x" = Except.error SsrfError.blockedProtocol := by
  refine ⟨?_, ?_, ?_, by rfl, by rfl, by rfl⟩
  · intro h
    simp [validateExternalUrl, h]
  · intro u h h1 h2
    have hc : (["http:", "https:"].contains u.protocol) = false := by
      simp [List.contains, h1, h2]
    unfold validateExternalUrl
    rw [h]
    dsimp only
    rw [hc]
    rfl
  · rintro (h | ⟨u, h, h1, h2⟩) b
    · simp [validateExternalUrl, h]
    · have hc : (["http:", "https:"].contains u.protocol) = false := by
        simp [List.contains, h1, h2]
      unfold validateExternalUrl
      rw [h]
      dsimp only
      rw [hc]
      simp

/-- Witness for C3 at concrete inputs: `not a url` is unparsable and
rejected as invalid, and `file:///etc/passwd` parses with the `file:`
protocol and is rejected as a blocked protocol. -/
theorem validateExternalUrl_scheme_gate_witness :
    (parseUrl "not a url" = none
      ∧ validateExternalUrl "not a url" = Except.error SsrfError.invalidUrl)
    ∧ (parseUrl "file:///etc/passwd" = some ⟨"file:", ""⟩
      ∧ validateExternalUrl "file:///etc/passwd" = Except.error SsrfError.blockedProtocol) :=
  ⟨⟨by decide, (validateExternalUrl_scheme_gate "not a url").1 (by decide)⟩,
   ⟨by decide, (validateExternalUrl_scheme_gate "file:///etc/passwd").2.1
      ⟨"file:", ""⟩ (by decide) (by decide) (by decide)⟩⟩

/-- C9: `isInternalUrl` is the exact complement of `validateExternalUrl`:
it returns `false` exactly when the validator allows the URL and `true`
exactly when the validator rejects it with some error; being a total
function it never throws. -/
theorem isInternalUrl_complement (s : String) :
    (isInternalUrl s = false ↔ validateExternalUrl s = Except.ok true)
    ∧ (isInternalUrl s = true ↔ ∃ e, validateExternalUrl s = Except.error e) := by
  cases h : validateExternalUrl s with
  | ok b =>
    have hb := validateExternalUrl_ok_val s b h
    subst hb
    simp [isInternalUrl, h]
  | error e =>
    simp [isInternalUrl, h]

/-! ## Upload validator (`src/lib/security/file-upload.ts`)

A `File` is modelled by its name, declared content-type and content bytes;
`file.size` is the content length and `file.slice(0, 8)` is `bytes.take 8`.
An out-of-range read `bytes[i]` yields `undefined`, modelled by `none`, and
`undefined !== expectedBytes[i]` always holds, so the signature loop is the
bounded `all` over the expected indices. -/

/-- Magic bytes table (source: `MAGIC_BYTES`). -/
def MAGIC_BYTES : List (String × List Nat) :=
  [("image/jpeg", [0xff, 0xd8, 0xff]),
   ("image/png", [0x89, 0x50, 0x4e, 0x47]),
   ("image/gif", [0x47, 0x49, 0x46, 0x38]),
   ("image/webp", [0x52, 0x49, 0x46, 0x46]),
   ("application/pdf", [0x25, 0x50, 0x44, 0x46])]

/-- Allowed extensions, lowercase (source: `ALLOWED_EXTENSIONS`). -/
def ALLOWED_EXTENSIONS : List String := [".jpg", ".jpeg", ".png", ".gif", ".webp", ".pdf"]

/-- Max file size, 10 MiB (source: `MAX_FILE_SIZE`). -/
def MAX_FILE_SIZE : Nat := 10 * 1024 * 1024

/-- Model of the `File` object fields the validator reads. -/
structure FileCandidate where
  name : String
  type : String
  bytes : List Nat
  deriving DecidableEq, Repr

/-- JavaScript `file.size`: the length of the content. -/
def FileCandidate.size (f : FileCandidate) : Nat := f.bytes.length

/-- Error kinds thrown by `validateFileUpload`, one per `throw` site (the
`noSignature` site is the dead re-check after the key-membership test). -/
inductive FileError where
  | fileTooLarge
  | emptyFile
  | invalidExtension
  | invalidMimeType
  | noSignature
  | signatureMismatch
  deriving DecidableEq, Repr

/-- Source: `"." + (file.name.split(".").pop()?.toLowerCase() || "")`. The
`pop` of a `split` result is its last element (`split` never returns an
empty array), and `|| ""` fires exactly when that element is empty. -/
def fileExt (name : String) : String :=
  "." ++ strToLower ⟨(name.data.splitOn '.').getLastD []⟩

/-- The signature loop of the source: every index of the expected signature
holds the same byte in the file prefix (an out-of-range read is `none`). -/
def sigMatch (bytes expected : List Nat) : Bool :=
  (List.range expected.length).all fun i => bytes[i]? == expected[i]?

/-- Embedding of `validateFileUpload` (`src/lib/security/file-upload.ts`,
lines 27-64): size, emptiness, extension, MIME-key and magic-byte checks in
source order; `Except.error` stands for `throw`. -/
def validateFileUpload (f : FileCandidate) : Except FileError Unit :=
  if f.size > MAX_FILE_SIZE then Except.error .fileTooLarge
  else if f.size = 0 then Except.error .emptyFile
  else if !(ALLOWED_EXTENSIONS.contains (fileExt f.name)) then Except.error .invalidExtension
  else if !((MAGIC_BYTES.map Prod.fst).contains f.type) then Except.error .invalidMimeType
  else
    match MAGIC_BYTES.lookup f.type with
    | none => Except.error .noSignature
    | some expectedBytes =>
      if sigMatch (f.bytes.take 8) expectedBytes then Except.ok ()
      else Except.error .signatureMismatch

/-- A key occurs in the first projections of an association list exactly
when `lookup` finds a value for it. -/
theorem keys_contains_eq_lookup_isSome (t : String) (l : List (String × List Nat)) :
    (l.map Prod.fst).contains t = (l.lookup t).isSome := by
  induction l with
  | nil => rfl
  | cons p rest ih =>
    obtain ⟨k, v⟩ := p
    by_cases hk : k = t
    · subst hk
      simp [List.lookup]
    · have hk2 : (k == t) = false := by simp [hk]
      have hk3 : (t == k) = false := by simp [Ne.symm hk]
      simp only [List.map_cons, List.contains_cons, List.lookup, hk2, hk3, Bool.false_or]
      exact ih

/-- The signature loop succeeds exactly when the file prefix of the
signature's length equals the signature. -/
theorem sigMatch_iff_take (bytes sig : List Nat) :
    sigMatch bytes sig = true ↔ bytes.take sig.length = sig := by
  unfold sigMatch
  rw [List.all_eq_true]
  constructor
  · intro h
    apply List.ext_getElem?
    intro i
    rw [List.getElem?_take]
    by_cases hi : i < sig.length
    · have hh := h i (List.mem_range.mpr hi)
      rw [if_pos hi]
      exact beq_iff_eq.mp hh
    · rw [if_neg hi]
      exact (List.getElem?_eq_none (Nat.le_of_not_lt hi)).symm
  · intro h i hi
    have hi' := List.mem_range.mp hi
    have hTake : (bytes.take sig.length)[i]? = sig[i]? := by rw [h]
    rw [List.getElem?_take, if_pos hi'] at hTake
    exact beq_iff_eq.mpr hTake

/-- Every registered signature is at most 8 bytes long (they are 3 or 4),
so it fits inside the `file.slice(0, 8)` read. -/
theorem magic_sig_short (t : String) (sig : List Nat)
    (h : MAGIC_BYTES.lookup t = some sig) : sig.length ≤ 8 := by
  simp only [MAGIC_BYTES, List.lookup] at h
  repeat' split at h
  all_goals simp_all
  all_goals subst h
  all_goals decide

/-- C4: the validator succeeds exactly when the size is in (0, 10 MiB], the
computed lower-cased extension is allowed, the declared content-type has a
registered signature, and the leading bytes equal that signature. A JPEG
prefix declared as `image/jpeg` with a `.jpg` name is accepted; the same
bytes declared as `application/pdf` fail the signature check. -/
theorem validateFileUpload_success_iff (f : FileCandidate) :
    (validateFileUpload f = Except.ok () ↔
      (0 < f.size ∧ f.size ≤ MAX_FILE_SIZE
        ∧ ALLOWED_EXTENSIONS.contains (fileExt f.name) = true
        ∧ ∃ sig, MAGIC_BYTES.lookup f.type = some sig ∧ f.bytes.take sig.length = sig))
    ∧ validateFileUpload ⟨"a.jpg", "image/jpeg", [0xff, 0xd8, 0xff]⟩ = Except.ok ()
    ∧ validateFileUpload ⟨"a.jpg", "application/pdf", [0xff, 0xd8, 0xff]⟩ =
        Except.error FileError.signatureMismatch := by
  refine ⟨?_, by rfl, by rfl⟩
  constructor
  · intro h
    unfold validateFileUpload at h
    split at h
    next h1 => exact absurd h (by simp)
    next h1 =>
    split at h
    next h2 => exact absurd h (by simp)
    next h2 =>
    split at h
    next h3 => exact absurd h (by simp)
    next h3 =>
    split at h
    next h4 => exact absurd h (by simp)
    next h4 =>
    split at h
    next hl => exact absurd h (by simp)
    next sig hl =>
      split at h
      next hm =>
        refine ⟨Nat.pos_of_ne_zero h2, Nat.le_of_not_lt h1, ?_, sig, hl, ?_⟩
        · cases hcc : ALLOWED_EXTENSIONS.contains (fileExt f.name) with
          | false => rw [hcc] at h3; exact absurd rfl h3
          | true => rfl
        · have h8 := magic_sig_short f.type sig hl
          have ht := (sigMatch_iff_take (f.bytes.take 8) sig).mp hm
          rw [List.take_take, min_eq_left h8] at ht
          exact ht
      next hm => exact absurd h (by simp)
  · rintro ⟨hpos, hmax, hext, sig, hl, htake⟩
    have h1 : ¬ f.size > MAX_FILE_SIZE := by omega
    have h2 : ¬ f.size = 0 := by omega
    have hkeys : (MAGIC_BYTES.map Prod.fst).contains f.type = true := by
      rw [keys_contains_eq_lookup_isSome, hl]
      rfl
    have hextnot : ¬ ((!ALLOWED_EXTENSIONS.contains (fileExt f.name)) = true) := by
      rw [hext]
      decide
    have hkeysnot : ¬ ((!(MAGIC_BYTES.map Prod.fst).contains f.type) = true) := by
      rw [hkeys]
      decide
    have h8 := magic_sig_short f.type sig hl
    have hm : sigMatch (f.bytes.take 8) sig = true := by
      rw [sigMatch_iff_take, List.take_take, min_eq_left h8]
      exact htake
    unfold validateFileUpload
    rw [if_neg h1, if_neg h2, if_neg hextnot, if_neg hkeysnot, hl]
    dsimp only
    rw [if_pos hm]

/-- Each rejection kind as an independent predicate on the candidate: the
condition under which its check, taken alone, fails. -/
def checkFails : FileError → FileCandidate → Bool
  | .fileTooLarge, f => decide (f.size > MAX_FILE_SIZE)
  | .emptyFile, f => decide (f.size = 0)
  | .invalidExtension, f => !(ALLOWED_EXTENSIONS.contains (fileExt f.name))
  | .invalidMimeType, f => !((MAGIC_BYTES.map Prod.fst).contains f.type)
  | .noSignature, f =>
      ((MAGIC_BYTES.map Prod.fst).contains f.type) && (MAGIC_BYTES.lookup f.type).isNone
  | .signatureMismatch, f =>
      match MAGIC_BYTES.lookup f.type with
      | none => false
      | some sig => !(sigMatch (f.bytes.take 8) sig)

/-- Position of each rejection kind in the source's check order. -/
def checkOrder : FileError → Nat
  | .fileTooLarge => 0
  | .emptyFile => 1
  | .invalidExtension => 2
  | .invalidMimeType => 3
  | .noSignature => 4
  | .signatureMismatch => 5

/-- C5: the validator reports an error exactly when that error's own check
fails and every check earlier in the source order passes (short-circuit on
the first failure); a zero-length file is rejected as empty whatever its
name and declared type. -/
theorem validateFileUpload_first_failure (f : FileCandidate) (e : FileError) :
    (validateFileUpload f = Except.error e ↔
      (checkFails e f = true ∧ ∀ e2, checkOrder e2 < checkOrder e → checkFails e2 f = false))
    ∧ (∀ n t, validateFileUpload ⟨n, t, []⟩ = Except.error FileError.emptyFile) := by
  refine ⟨?_, fun n t => rfl⟩
  by_cases p0 : f.size > MAX_FILE_SIZE
  · have hv : validateFileUpload f = Except.error .fileTooLarge := by
      unfold validateFileUpload
      rw [if_pos p0]
    rw [hv]
    constructor
    · intro he
      injection he with he'
      subst he'
      refine ⟨by simp [checkFails, p0], fun e2 h2 => ?_⟩
      cases e2 <;> simp_all [checkOrder, checkFails]
    · rintro ⟨hc, hmin⟩
      have contra : checkFails FileError.fileTooLarge f = false → False := by
        intro hx
        simp [checkFails, p0] at hx
      cases e with
      | fileTooLarge => rfl
      | emptyFile => exact (contra (hmin FileError.fileTooLarge (by decide))).elim
      | invalidExtension => exact (contra (hmin FileError.fileTooLarge (by decide))).elim
      | invalidMimeType => exact (contra (hmin FileError.fileTooLarge (by decide))).elim
      | noSignature => exact (contra (hmin FileError.fileTooLarge (by decide))).elim
      | signatureMismatch => exact (contra (hmin FileError.fileTooLarge (by decide))).elim
  by_cases p1 : f.size = 0
  · have hv : validateFileUpload f = Except.error .emptyFile := by
      unfold validateFileUpload
      rw [if_neg p0, if_pos p1]
    rw [hv]
    constructor
    · intro he
      injection he with he'
      subst he'
      refine ⟨by simp [checkFails, p1], fun e2 h2 => ?_⟩
      cases e2 <;> simp_all [checkOrder, checkFails]
    · rintro ⟨hc, hmin⟩
      have contra : checkFails FileError.emptyFile f = false → False := by
        intro hx
        simp [checkFails, p1] at hx
      cases e with
      | emptyFile => rfl
      | fileTooLarge => simp [checkFails, p0] at hc
      | invalidExtension => exact (contra (hmin FileError.emptyFile (by decide))).elim
      | invalidMimeType => exact (contra (hmin FileError.emptyFile (by decide))).elim
      | noSignature => exact (contra (hmin FileError.emptyFile (by decide))).elim
      | signatureMismatch => exact (contra (hmin FileError.emptyFile (by decide))).elim
  cases hc2 : ALLOWED_EXTENSIONS.contains (fileExt f.name) with
  | false =>
    have hv : validateFileUpload f = Except.error .invalidExtension := by
      unfold validateFileUpload
      rw [if_neg p0, if_neg p1, hc2]
      rfl
    rw [hv]
    constructor
    · intro he
      injection he with he'
      subst he'
      refine ⟨?_, fun e2 h2 => ?_⟩
      · simp only [checkFails]
        rw [hc2]
        decide
      · cases e2 <;> simp_all [checkOrder, checkFails]
    · rintro ⟨hc, hmin⟩
      have contra : checkFails FileError.invalidExtension f = false → False := by
        intro hx
        simp only [checkFails] at hx
        rw [hc2] at hx
        exact absurd hx (by decide)
      cases e with
      | invalidExtension => rfl
      | fileTooLarge => simp [checkFails, p0] at hc
      | emptyFile => simp [checkFails, p1] at hc
      | invalidMimeType => exact (contra (hmin FileError.invalidExtension (by decide))).elim
      | noSignature => exact (contra (hmin FileError.invalidExtension (by decide))).elim
      | signatureMismatch => exact (contra (hmin FileError.invalidExtension (by decide))).elim
  | true =>
  cases hc3 : (MAGIC_BYTES.map Prod.fst).contains f.type with
  | false =>
    have hv : validateFileUpload f = Except.error .invalidMimeType := by
      unfold validateFileUpload
      rw [if_neg p0, if_neg p1, hc2, hc3]
      rfl
    rw [hv]
    constructor
    · intro he
      injection he with he'
      subst he'
      refine ⟨?_, fun e2 h2 => ?_⟩
      · simp only [checkFails]
        rw [hc3]
        decide
      · cases e2 <;> simp_all [checkOrder, checkFails]
    · rintro ⟨hc, hmin⟩
      have contra : checkFails FileError.invalidMimeType f = false → False := by
        intro hx
        simp only [checkFails] at hx
        rw [hc3] at hx
        exact absurd hx (by decide)
      cases e with
      | invalidMimeType => rfl
      | fileTooLarge => simp [checkFails, p0] at hc
      | emptyFile => simp [checkFails, p1] at hc
      | invalidExtension =>
        simp only [checkFails] at hc
        rw [hc2] at hc
        exact absurd hc (by decide)
      | noSignature => exact (contra (hmin FileError.invalidMimeType (by decide))).elim
      | signatureMismatch => exact (contra (hmin FileError.invalidMimeType (by decide))).elim
  | true =>
  cases hl : MAGIC_BYTES.lookup f.type with
  | none =>
    have hcontra := keys_contains_eq_lookup_isSome f.type MAGIC_BYTES
    rw [hc3, hl] at hcontra
    simp at hcontra
  | some sig =>
  cases hm : sigMatch (f.bytes.take 8) sig with
  | false =>
    have hv : validateFileUpload f = Except.error .signatureMismatch := by
      unfold validateFileUpload
      rw [if_neg p0, if_neg p1, hc2, hc3, hl]
      dsimp only
      rw [hm]
      rfl
    rw [hv]
    constructor
    · intro he
      injection he with he'
      subst he'
      refine ⟨?_, fun e2 h2 => ?_⟩
      · simp only [checkFails]
        rw [hl]
        dsimp only
        rw [hm]
        decide
      · cases e2 <;> simp_all [checkOrder, checkFails]
    · rintro ⟨hc, hmin⟩
      cases e with
      | signatureMismatch => rfl
      | fileTooLarge => simp [checkFails, p0] at hc
      | emptyFile => simp [checkFails, p1] at hc
      | invalidExtension =>
        simp only [checkFails] at hc
        rw [hc2] at hc
        exact absurd hc (by decide)
      | invalidMimeType =>
        simp only [checkFails] at hc
        rw [hc3] at hc
        exact absurd hc (by decide)
      | noSignature => simp [checkFails, hl] at hc
  | true =>
    have hv : validateFileUpload f = Except.ok () := by
      unfold validateFileUpload
      rw [if_neg p0, if_neg p1, hc2, hc3, hl]
      dsimp only
      rw [hm]
      rfl
    rw [hv]
    constructor
    · intro he
      exact absurd he (by simp)
    · rintro ⟨hc, hmin⟩
      exfalso
      cases e <;> simp_all [checkFails]
      all_goals omega

/-- C10: a candidate that passes the size, extension and content-type
checks but whose total byte count is less than its registered signature's
length is rejected with the signature-mismatch error: the out-of-range
reads can never equal the expected signature bytes. -/
theorem validateFileUpload_short_rejects (f : FileCandidate) (sig : List Nat)
    (hl : MAGIC_BYTES.lookup f.type = some sig)
    (hpos : 0 < f.size) (hmax : f.size ≤ MAX_FILE_SIZE)
    (hext : ALLOWED_EXTENSIONS.contains (fileExt f.name) = true)
    (hshort : f.bytes.length < sig.length) :
    validateFileUpload f = Except.error FileError.signatureMismatch := by
  have p0 : ¬ f.size > MAX_FILE_SIZE := by omega
  have p1 : ¬ f.size = 0 := by omega
  have hkeys : (MAGIC_BYTES.map Prod.fst).contains f.type = true := by
    rw [keys_contains_eq_lookup_isSome, hl]
    rfl
  have h8 := magic_sig_short f.type sig hl
  have hm : sigMatch (f.bytes.take 8) sig = false := by
    cases hb : sigMatch (f.bytes.take 8) sig with
    | false => rfl
    | true =>
      exfalso
      have ht := (sigMatch_iff_take (f.bytes.take 8) sig).mp hb
      rw [List.take_take, min_eq_left h8] at ht
      have hlen := congrArg List.length ht
      rw [List.length_take] at hlen
      have hmin := Nat.min_le_right sig.length f.bytes.length
      omega
  have hextnot : ¬ ((!ALLOWED_EXTENSIONS.contains (fileExt f.name)) = true) := by
    rw [hext]
    decide
  have hkeysnot : ¬ ((!(MAGIC_BYTES.map Prod.fst).contains f.type) = true) := by
    rw [hkeys]
    decide
  unfold validateFileUpload
  rw [if_neg p0, if_neg p1, if_neg hextnot, if_neg hkeysnot, hl]
  dsimp only
  rw [if_neg (by rw [hm]; decide)]

/-- Witness for C10: a one-byte file declared `image/png` (signature length
four) that passes size, extension and content-type checks is rejected with
the signature-mismatch error. -/
theorem validateFileUpload_short_rejects_witness :
    ([0x89] : List Nat).length < ([0x89, 0x50, 0x4e, 0x47] : List Nat).length
    ∧ validateFileUpload ⟨"a.png", "image/png", [0x89]⟩
        = Except.error FileError.signatureMismatch :=
  ⟨by decide,
   validateFileUpload_short_rejects ⟨"a.png", "image/png", [0x89]⟩
     [0x89, 0x50, 0x4e, 0x47] (by rfl) (by decide) (by decide) (by decide) (by decide)⟩

/-! ## Filename utilities (`src/lib/security/file-upload.ts`)

`sanitizeFilename` is a chain of three global regex replacements, each
modelled as the corresponding list transformation; `generateSafeFilename`
calls `crypto.randomUUID()`, a nondeterministic platform source modelled as
an explicit `uuid` argument. -/

/-- Source step `filename.replace(/\.\./g, "")`: scan left to right, drop
each non-overlapping pair of consecutive dots. -/
def stripDotDot : List Char → List Char
  | [] => []
  | [c] => [c]
  | c1 :: c2 :: rest =>
    if c1 == '.' && c2 == '.' then stripDotDot rest
    else c1 :: stripDotDot (c2 :: rest)

/-- Source step `safe.replace(/\0/g, "")`: drop every null byte. -/
def stripNulls (l : List Char) : List Char :=
  l.filter (fun c => c ≠ '\x00')

/-- The character class `[a-zA-Z0-9._-]` of the third replacement. -/
def safeChar (c : Char) : Bool :=
  ('a' ≤ c && c ≤ 'z') || ('A' ≤ c && c ≤ 'Z') || ('0' ≤ c && c ≤ '9') ||
  c = '.' || c = '_' || c = '-'

/-- Source step `safe.replace(/[^a-zA-Z0-9._-]/g, "_")`. -/
def replaceUnsafe (l : List Char) : List Char :=
  l.map (fun c => if safeChar c then c else '_')

/-- Embedding of `sanitizeFilename` (`src/lib/security/file-upload.ts`,
lines 79-87): strip `..` pairs, then null bytes, then replace every
character outside the safe class with `_`. -/
def sanitizeFilename (filename : String) : String :=
  ⟨replaceUnsafe (stripNulls (stripDotDot filename.data))⟩

/-- Two consecutive dots occur somewhere in the list. -/
def hasDotDot : List Char → Bool
  | c1 :: c2 :: rest => (c1 == '.' && c2 == '.') || hasDotDot (c2 :: rest)
  | _ => false

/-- A character other than `.` at the head is kept by the dot-pair scan. -/
theorem stripDotDot_cons_ne (c : Char) (t : List Char) (hc : (c == '.') = false) :
    stripDotDot (c :: t) = c :: stripDotDot t := by
  cases t with
  | nil => rfl
  | cons c3 r =>
    simp only [stripDotDot]
    rw [if_neg]
    simp [hc]

/-- The output of the dot-pair scan never contains two consecutive dots. -/
theorem hasDotDot_stripDotDot : ∀ l : List Char, hasDotDot (stripDotDot l) = false
  | [] => rfl
  | [_] => rfl
  | c1 :: c2 :: rest => by
    by_cases h : (c1 == '.' && c2 == '.') = true
    · simp only [stripDotDot]
      rw [if_pos h]
      exact hasDotDot_stripDotDot rest
    · simp only [stripDotDot]
      rw [if_neg h]
      have ih := hasDotDot_stripDotDot (c2 :: rest)
      cases hc1 : (c1 == '.') with
      | false =>
        cases hx : stripDotDot (c2 :: rest) with
        | nil => rfl
        | cons d ds =>
          rw [hx] at ih
          simp only [hasDotDot, hc1, Bool.false_and, Bool.false_or]
          exact ih
      | true =>
        have hc2 : (c2 == '.') = false := by
          cases hb : (c2 == '.') with
          | false => rfl
          | true => exact absurd (by rw [hc1, hb]; rfl) h
        rw [stripDotDot_cons_ne c2 rest hc2]
        rw [stripDotDot_cons_ne c2 rest hc2] at ih
        simp only [hasDotDot, hc2, Bool.and_false, Bool.false_or]
        exact ih

/-- The dot-pair scan only drops characters (its output is a sublist). -/
theorem stripDotDot_sublist : ∀ l : List Char, List.Sublist (stripDotDot l) l
  | [] => List.Sublist.refl _
  | [c] => List.Sublist.refl _
  | c1 :: c2 :: rest => by
    by_cases h : (c1 == '.' && c2 == '.') = true
    · simp only [stripDotDot]
      rw [if_pos h]
      exact (stripDotDot_sublist rest).trans
        ((List.sublist_cons_self c2 rest).trans (List.sublist_cons_self c1 (c2 :: rest)))
    · simp only [stripDotDot]
      rw [if_neg h]
      exact List.Sublist.cons₂ c1 (stripDotDot_sublist (c2 :: rest))

/-- The unsafe-character replacement maps a character to `.` exactly when
it already was `.` (the dot is in the safe class and `_` is not a dot). -/
theorem replaceUnsafe_dot (c : Char) :
    ((if safeChar c then c else '_') == '.') = (c == '.') := by
  by_cases hcd : c = '.'
  · subst hcd
    decide
  · have hne : (c == '.') = false := by simp [hcd]
    by_cases hs : safeChar c = true
    · rw [if_pos hs]
    · rw [if_neg hs]
      rw [hne]
      decide

/-- The unsafe-character replacement neither creates nor removes pairs of
consecutive dots. -/
theorem hasDotDot_replaceUnsafe : ∀ l : List Char, hasDotDot (replaceUnsafe l) = hasDotDot l
  | [] => rfl
  | [_] => rfl
  | c1 :: c2 :: rest => by
    have ih := hasDotDot_replaceUnsafe (c2 :: rest)
    simp only [replaceUnsafe, List.map_cons] at ih ⊢
    simp only [hasDotDot, replaceUnsafe_dot c1, replaceUnsafe_dot c2, ih]

/-- C6 counterexample: the claim states the sanitizer's output never
contains a `..` substring, but `..` is stripped before null bytes are, so
the three characters dot, null, dot sanitize to exactly `..`. -/
theorem sanitizeFilename_dotdot_escape :
    sanitizeFilename ⟨['.', '\x00', '.']⟩ = ".."
    ∧ hasDotDot (sanitizeFilename ⟨['.', '\x00', '.']⟩).data = true := by
  constructor <;> rfl

/-- C6 (amended): every character of the sanitizer's output is in the class
`[A-Za-z0-9._-]`, and for inputs containing no null byte the output never
contains two consecutive dots. -/
theorem sanitizeFilename_amended (s : String) :
    (∀ c ∈ (sanitizeFilename s).data, safeChar c = true)
    ∧ ('\x00' ∉ s.data → hasDotDot (sanitizeFilename s).data = false) := by
  constructor
  · intro c hc
    simp only [sanitizeFilename, replaceUnsafe] at hc
    obtain ⟨d, _, rfl⟩ := List.mem_map.mp hc
    by_cases hs : safeChar d = true
    · rw [if_pos hs]
      exact hs
    · rw [if_neg hs]
      decide
  · intro hnull
    simp only [sanitizeFilename]
    rw [hasDotDot_replaceUnsafe]
    have hnodot : stripNulls (stripDotDot s.data) = stripDotDot s.data := by
      apply List.filter_eq_self.mpr
      intro a ha
      have : a ∈ s.data := (stripDotDot_sublist s.data).subset ha
      simp only [ne_eq, decide_eq_true_eq]
      intro heq
      exact hnull (heq ▸ this)
    rw [hnodot]
    exact hasDotDot_stripDotDot s.data

/-- Witness for C6 (amended) at a concrete null-free input containing both
a dot pair and unsafe characters. -/
theorem sanitizeFilename_amended_witness :
    '\x00' ∉ ("a..b/ c" : String).data
    ∧ sanitizeFilename "a..b/ c" = "ab__c"
    ∧ hasDotDot (sanitizeFilename "a..b/ c").data = false :=
  ⟨by decide, by rfl, (sanitizeFilename_amended "a..b/ c").2 (by decide)⟩

/-- Embedding of `generateSafeFilename` (`src/lib/security/file-upload.ts`,
lines 70-74). The call `crypto.randomUUID()` draws from a nondeterministic
platform source; the drawn identifier is passed in as `uuid`. The extension
is `originalName.split(".").pop()?.toLowerCase() || "bin"`: the last
dot-segment lower-cased, with `"bin"` exactly when that segment is empty
(`pop()` on a `split` result is never `undefined`). -/
def generateSafeFilename (uuid : String) (originalName : String) : String :=
  let seg := strToLower ⟨(originalName.data.splitOn '.').getLastD []⟩
  let ext := if seg = "" then "bin" else seg
  uuid ++ "." ++ ext

/-- C7 counterexample: the claim states a dotless input gets the default
extension `bin`; in fact `split(".").pop()` on a dotless name returns the
whole name (a non-empty string, so `|| "bin"` does not fire), and the
result ends in the lower-cased name itself, not in `.bin`. -/
theorem generateSafeFilename_dotless_not_bin :
    '.' ∉ ("photo" : String).data
    ∧ generateSafeFilename "00000000-0000-4000-8000-000000000000" "photo"
        = "00000000-0000-4000-8000-000000000000.photo"
    ∧ (".bin".data.isSuffixOf
        (generateSafeFilename "00000000-0000-4000-8000-000000000000" "photo").data) = false := by
  refine ⟨by decide, by rfl, by decide⟩

/-- C7 (amended): the result is the identifier, a dot, and the lower-cased
last dot-segment of the input; `bin` is used exactly when that segment is
empty (empty input, or input ending in a dot). `"my photo.JPG"` yields the
`.jpg` extension; a non-empty dotless name yields its whole lower-cased
self as the extension. -/
theorem generateSafeFilename_ext (uuid name : String) :
    (generateSafeFilename uuid "my photo.JPG" = uuid ++ "." ++ "jpg")
    ∧ (name.data ≠ [] → '.' ∉ name.data →
        generateSafeFilename uuid name = uuid ++ "." ++ strToLower name)
    ∧ (generateSafeFilename uuid "" = uuid ++ "." ++ "bin")
    ∧ (generateSafeFilename uuid "archive." = uuid ++ "." ++ "bin") := by
  refine ⟨by rfl, ?_, by rfl, by rfl⟩
  intro hne hdot
  have hsplit : name.data.splitOn '.' = [name.data] := by
    apply List.splitOnP_eq_single
    intro x hx
    simp only [beq_iff_eq]
    intro heq
    exact hdot (heq ▸ hx)
  have hnz : ¬ (strToLower name = "") := by
    intro hz
    have hd : (strToLower name).data = [] := by rw [hz]
    simp only [strToLower, List.map_eq_nil_iff] at hd
    exact hne hd
  have hgen : generateSafeFilename uuid name
      = uuid ++ "." ++ (if strToLower name = "" then "bin" else strToLower name) := by
    unfold generateSafeFilename
    rw [hsplit]
    rfl
  rw [hgen, if_neg hnz]

/-- Witness for C7 (amended) at the concrete dotless name `photo`. -/
theorem generateSafeFilename_ext_witness :
    ("photo" : String).data ≠ []
    ∧ '.' ∉ ("photo" : String).data
    ∧ generateSafeFilename "u" "photo" = "u" ++ "." ++ strToLower "photo" :=
  ⟨by decide, by decide,
   (generateSafeFilename_ext "u" "photo").2.1 (by decide) (by decide)⟩

/-! ## HTML output encoder (`src/lib/security/escape.ts`)

`escapeHtml` is a chain of five global single-character replacements, in
source order with the ampersand first. The round-trip claim is settled
against a decoder of the five produced entities (`&amp;` `&lt;` `&gt;`
`&quot;` `&#039;`), the behaviour any standard HTML-entity decoder has on
strings built from them. -/

/-- Model of JavaScript global single-character `replace`: every occurrence
of `c` becomes `rep`, all other characters stay. -/
def replaceChar (c : Char) (rep : List Char) (l : List Char) : List Char :=
  l.flatMap (fun d => if d = c then rep else [d])

/-- Embedding of `escapeHtml` (`src/lib/security/escape.ts`, lines 14-22):
`if (!str) return ""` then the five replacements, ampersand first. -/
def escapeHtml (str : String) : String :=
  if str = "" then ""
  else
    ⟨replaceChar '\'' "&#039;".data
      (replaceChar '"' "&quot;".data
        (replaceChar '>' "&gt;".data
          (replaceChar '<' "&lt;".data
            (replaceChar '&' "&amp;".data str.data))))⟩

/-- The escape of one character: its entity if it is one of the five
special characters, itself otherwise. -/
def escChar (c : Char) : List Char :=
  if c = '&' then "&amp;".data
  else if c = '<' then "&lt;".data
  else if c = '>' then "&gt;".data
  else if c = '"' then "&quot;".data
  else if c = '\'' then "&#039;".data
  else [c]

/-- Specification-side definition for the round-trip property: a standard
HTML-entity decoder restricted to the five entities the escaper emits; any
other character (including an ampersand not starting a recognized entity)
is passed through. -/
def decodeHtmlEntities : List Char → List Char
  | [] => []
  | c :: rest =>
    if c == '&' && "amp;".data.isPrefixOf rest then '&' :: decodeHtmlEntities (rest.drop 4)
    else if c == '&' && "lt;".data.isPrefixOf rest then '<' :: decodeHtmlEntities (rest.drop 3)
    else if c == '&' && "gt;".data.isPrefixOf rest then '>' :: decodeHtmlEntities (rest.drop 3)
    else if c == '&' && "quot;".data.isPrefixOf rest then '"' :: decodeHtmlEntities (rest.drop 5)
    else if c == '&' && "#039;".data.isPrefixOf rest then '\'' :: decodeHtmlEntities (rest.drop 5)
    else c :: decodeHtmlEntities rest
termination_by l => l.length
decreasing_by all_goals (simp only [List.length_cons, List.length_drop]; omega)

/-- String form of the entity decoder. -/
def decodeHtml (s : String) : String := ⟨decodeHtmlEntities s.data⟩

/-- Decoding consumes one escaped character at a time. -/
theorem decode_escChar (c : Char) (t : List Char) :
    decodeHtmlEntities (escChar c ++ t) = c :: decodeHtmlEntities t := by
  by_cases h1 : c = '&'
  · subst h1
    show decodeHtmlEntities ('&' :: 'a' :: 'm' :: 'p' :: ';' :: t) = _
    rw [decodeHtmlEntities]
    simp [List.isPrefixOf]
  by_cases h2 : c = '<'
  · subst h2
    show decodeHtmlEntities ('&' :: 'l' :: 't' :: ';' :: t) = _
    rw [decodeHtmlEntities]
    simp [List.isPrefixOf]
  by_cases h3 : c = '>'
  · subst h3
    show decodeHtmlEntities ('&' :: 'g' :: 't' :: ';' :: t) = _
    rw [decodeHtmlEntities]
    simp [List.isPrefixOf]
  by_cases h4 : c = '"'
  · subst h4
    show decodeHtmlEntities ('&' :: 'q' :: 'u' :: 'o' :: 't' :: ';' :: t) = _
    rw [decodeHtmlEntities]
    simp [List.isPrefixOf]
  by_cases h5 : c = '\''
  · subst h5
    show decodeHtmlEntities ('&' :: '#' :: '0' :: '3' :: '9' :: ';' :: t) = _
    rw [decodeHtmlEntities]
    simp [List.isPrefixOf]
  have he : escChar c = [c] := by simp [escChar, h1, h2, h3, h4, h5]
  rw [he]
  show decodeHtmlEntities (c :: t) = _
  rw [decodeHtmlEntities]
  simp [h1]

/-- A global single-character replacement distributes over concatenation. -/
theorem replaceChar_append (x : Char) (rep l1 l2 : List Char) :
    replaceChar x rep (l1 ++ l2) = replaceChar x rep l1 ++ replaceChar x rep l2 := by
  simp [replaceChar]

/-- The five sequential replacements act independently on each character:
the chain equals the per-character escape. The ampersand replacement runs
first, so ampersands introduced by later entities are never re-escaped. -/
theorem chain_eq_flatMap : ∀ l : List Char,
    replaceChar '\'' "&#039;".data
      (replaceChar '"' "&quot;".data
        (replaceChar '>' "&gt;".data
          (replaceChar '<' "&lt;".data
            (replaceChar '&' "&amp;".data l)))) = l.flatMap escChar
  | [] => rfl
  | c :: rest => by
    have hc : (c :: rest) = [c] ++ rest := rfl
    rw [hc, replaceChar_append, replaceChar_append, replaceChar_append, replaceChar_append,
      replaceChar_append, chain_eq_flatMap rest]
    have hd : (([c] ++ rest).flatMap escChar) = escChar c ++ rest.flatMap escChar := by
      simp
    rw [hd]
    congr 1
    by_cases h1 : c = '&'
    · subst h1; rfl
    by_cases h2 : c = '<'
    · subst h2; rfl
    by_cases h3 : c = '>'
    · subst h3; rfl
    by_cases h4 : c = '"'
    · subst h4; rfl
    by_cases h5 : c = '\''
    · subst h5; rfl
    simp [replaceChar, escChar, h1, h2, h3, h4, h5]

/-- Decoding undoes the per-character escape of a whole string. -/
theorem decode_flatMap : ∀ l : List Char, decodeHtmlEntities (l.flatMap escChar) = l
  | [] => by rw [decodeHtmlEntities.eq_def]; rfl
  | c :: rest => by
    have h : (c :: rest).flatMap escChar = escChar c ++ rest.flatMap escChar := by simp
    rw [h, decode_escChar, decode_flatMap rest]

/-- The decoder of the empty string. -/
theorem decodeHtmlEntities_nil : decodeHtmlEntities [] = [] := by
  rw [decodeHtmlEntities.eq_def]

/-- The decoder on an explicitly built string. -/
theorem decodeHtml_mk (l : List Char) : decodeHtml ⟨l⟩ = ⟨decodeHtmlEntities l⟩ := rfl

/-- C8: decoding the escaped output with the standard entity decoder
reproduces the original string exactly, for every input; and the script
example escapes to exactly the expected entity string. -/
theorem escapeHtml_round_trip (s : String) :
    decodeHtml (escapeHtml s) = s
    ∧ escapeHtml "<script>alert('x')</script>"
        = "&lt;script&gt;alert(&#039;x&#039;)&lt;/script&gt;" := by
  constructor
  · by_cases hs : s = ""
    · subst hs
      show decodeHtml "" = ""
      rw [show ("" : String) = ⟨[]⟩ from rfl, decodeHtml_mk, decodeHtmlEntities_nil]
    · unfold escapeHtml
      rw [if_neg hs, decodeHtml_mk, chain_eq_flatMap, decode_flatMap]
  · rfl
